import Mathlib

/-!
Verification of the dynamic query-building layer (query parser /
aggregation-pipeline builder) of the backend repository.

The development shallowly embeds the JavaScript source of
`QueryParser`, `UniversalQueryBuilder` and `UniversalPipelineBuilder`
(the query-parser utility module).  Raw HTTP query mappings and the
MongoDB filter objects produced from them are modelled by the `JValue`
tree; the JavaScript string/number primitives the code relies on
(`String.prototype.replace` with the operator regex, `parseInt`,
`Math.min`, `Math.ceil`, date parsing, ObjectId validity) are modelled
by executable Lean functions mirroring their ECMAScript semantics.
-/

/-! ## JavaScript string primitives -/

/-- Word character for the regex metacharacter `\b` (ECMAScript `\w`):
ASCII letter, digit or underscore. -/
def jsWordChar (c : Char) : Bool := c.isAlpha || c.isDigit || c == '_'

/-- The alternatives of the operator regex
`/\b(gte|gt|lte|lt|in|nin|ne|regex)\b/g` in source order (JavaScript
alternation is first-match in written order). -/
def opTokens : List (List Char) :=
  ["gte".data, "gt".data, "lte".data, "lt".data, "in".data, "nin".data, "ne".data, "regex".data]

/-- Try the token alternatives at the current position: the first token
that is a prefix of `cs` and is followed by a non-word character (or the
end of the string) matches; returns the token and the remaining input. -/
def tryTokens : List (List Char) → List Char → Option (List Char × List Char)
  | [], _ => none
  | t :: ts, cs =>
    if t.isPrefixOf cs && (match cs.drop t.length with
                           | [] => true
                           | c :: _ => !jsWordChar c) then
      some (t, cs.drop t.length)
    else tryTokens ts cs

/-- One pass of the global regex replacement
`queryStr.replace(/\b(gte|gt|lte|lt|in|nin|ne|regex)\b/g, m => '$' + m)`.
`atB` records whether the current position is at a `\b` word boundary
(the previous character, if any, is not a word character); after a match
the scan resumes right after the matched token.  The fuel argument is an
upper bound on the number of steps; callers pass the input length, which
always suffices because each step consumes at least one character. -/
def replaceAux : Nat → Bool → List Char → List Char
  | 0, _, cs => cs
  | _ + 1, _, [] => []
  | fuel + 1, atB, c :: rest =>
    match (if atB then tryTokens opTokens (c :: rest) else none) with
    | some (t, rest') => '$' :: (t ++ replaceAux fuel false rest')
    | none => c :: replaceAux fuel (!jsWordChar c) rest

/-- Model of `s.replace(/\b(gte|gt|lte|lt|in|nin|ne|regex)\b/g, m => '$' + m)`. -/
def replaceOps (s : String) : String := ⟨replaceAux s.data.length true s.data⟩

/-- JavaScript `String.prototype.toLowerCase` (ASCII-adequate model). -/
def strToLower (s : String) : String := ⟨s.data.map Char.toLower⟩

/-- Accumulating splitter for `String.prototype.split(',')`. -/
def splitCommaAux : List Char → List Char → List String
  | [], acc => [String.mk acc.reverse]
  | c :: rest, acc =>
    if c = ',' then String.mk acc.reverse :: splitCommaAux rest []
    else splitCommaAux rest (c :: acc)

/-- JavaScript `s.split(',')`: split on every comma, keeping empty
parts (`''.split(',')` is `['']`). -/
def splitComma (s : String) : List String := splitCommaAux s.data []

/-- Substring occurrence over character lists (helper for
`String.prototype.includes`). -/
def listContainsSub (pat : List Char) : List Char → Bool
  | [] => pat.isEmpty
  | cs@(_ :: rest) => pat.isPrefixOf cs || listContainsSub pat rest

/-- JavaScript `s.includes(pat)`. -/
def strContainsSub (s pat : String) : Bool := listContainsSub pat.data s.data

/-- Hexadecimal digit (either case), as accepted by the ObjectId format. -/
def isHexChar (c : Char) : Bool :=
  c.isDigit || ('a' ≤ c && c ≤ 'f') || ('A' ≤ c && c ≤ 'F')

/-- Modelled from the spec: the storage collaborator's identifier
validity check `Types.ObjectId.isValid` (the mongoose driver is outside
the repository; per the spec the storage layer's identifier format is a
24-character hexadecimal string, as in the spec's example
`"507f1f77bcf86cd799439011"`). -/
def isValidObjectId (s : String) : Bool :=
  s.data.length == 24 && s.data.all isHexChar

/-! ## JavaScript date-string recognition

`QueryParser.isValidDate` evaluates `!isNaN(new Date(str))`.  The
portion of `new Date(string)` parsing mandated by ECMA-262 is the Date
Time String Format `YYYY[-MM[-DD]][THH:mm[:ss[.sss]][Z|±HH:mm]]`
(a simplification of ISO 8601; note that a bare four-digit year such as
`"2023"` is a valid date string).  Engine-specific fallback parsing of
other strings is implementation-defined and modelled as rejection. -/

/-- The two-digit number `ab` lies in `[lo, hi]`. -/
def twoDigitBetween (a b : Char) (lo hi : Nat) : Bool :=
  a.isDigit && b.isDigit &&
    (decide (lo ≤ (a.toNat - 48) * 10 + (b.toNat - 48)) &&
     decide ((a.toNat - 48) * 10 + (b.toNat - 48) ≤ hi))

/-- Time-zone designator: empty, `Z`, or `±HH:mm`. -/
def validTZ : List Char → Bool
  | [] => true
  | ['Z'] => true
  | [s, h1, h2, ':', m1, m2] =>
    (s == '+' || s == '-') && twoDigitBetween h1 h2 0 23 && twoDigitBetween m1 m2 0 59
  | _ => false

/-- Optional fractional seconds `.sss` followed by a time zone. -/
def validSecFrac : List Char → Bool
  | '.' :: a :: b :: c :: rest => a.isDigit && b.isDigit && c.isDigit && validTZ rest
  | rest => validTZ rest

/-- Optional seconds `:ss` (with optional fraction) followed by a time zone. -/
def validSec : List Char → Bool
  | ':' :: a :: b :: rest => twoDigitBetween a b 0 59 && validSecFrac rest
  | rest => validTZ rest

/-- Time part `HH:mm[:ss[.sss]][Z|±HH:mm]`. -/
def validTime : List Char → Bool
  | h1 :: h2 :: ':' :: m1 :: m2 :: rest =>
    twoDigitBetween h1 h2 0 24 && twoDigitBetween m1 m2 0 59 && validSec rest
  | _ => false

/-- After a complete date: nothing, or `T` followed by a time. -/
def validAfterDate : List Char → Bool
  | [] => true
  | 'T' :: rest => validTime rest
  | _ => false

/-- After the year: nothing, `-MM[-DD]`, or a time part. -/
def validMonthDay : List Char → Bool
  | [] => true
  | 'T' :: rest => validTime rest
  | '-' :: m1 :: m2 :: rest =>
    twoDigitBetween m1 m2 1 12 &&
      (match rest with
       | [] => true
       | 'T' :: rest2 => validTime rest2
       | '-' :: d1 :: d2 :: rest2 => twoDigitBetween d1 d2 1 31 && validAfterDate rest2
       | _ => false)
  | _ => false

/-- Model of `QueryParser.isValidDate` (`!isNaN(new Date(str))`),
accepting the ECMA-262 Date Time String Format. -/
def isValidDateJS (s : String) : Bool :=
  match s.data with
  | y1 :: y2 :: y3 :: y4 :: rest =>
    y1.isDigit && y2.isDigit && y3.isDigit && y4.isDigit && validMonthDay rest
  | _ => false

/-! ## JavaScript `parseInt` and the `||` default idiom -/

/-- Value of a list of decimal digits. -/
def decDigitsVal (ds : List Char) : Nat := ds.foldl (fun acc c => acc * 10 + (c.toNat - 48)) 0

/-- Value of one hexadecimal digit. -/
def hexDigitVal (c : Char) : Nat :=
  if c.isDigit then c.toNat - 48
  else if 'a' ≤ c && c ≤ 'f' then c.toNat - 87
  else c.toNat - 55

/-- Value of a list of hexadecimal digits. -/
def hexDigitsVal (ds : List Char) : Nat := ds.foldl (fun acc c => acc * 16 + hexDigitVal c) 0

/-- JavaScript `parseInt(s)` with no radix argument: skip leading white
space, read an optional sign, then either a `0x`/`0X`-prefixed run of
hexadecimal digits or a run of decimal digits, stopping at the first
other character; `none` models `NaN` (no digits at all). -/
def parseIntJS (s : String) : Option Int :=
  let cs := s.data.dropWhile fun c => c.isWhitespace
  let sign : Int := match cs with
    | '-' :: _ => -1
    | _ => 1
  let cs2 := match cs with
    | '-' :: r => r
    | '+' :: r => r
    | _ => cs
  match cs2 with
  | '0' :: x :: r =>
    if x == 'x' || x == 'X' then
      let ds := r.takeWhile isHexChar
      if ds.isEmpty then none else some (sign * (hexDigitsVal ds : Int))
    else
      some (sign * (decDigitsVal (('0' :: x :: r).takeWhile Char.isDigit) : Int))
  | _ =>
    let ds := cs2.takeWhile Char.isDigit
    if ds.isEmpty then none else some (sign * (decDigitsVal ds : Int))

/-- The JavaScript idiom `parseInt(x) || d`: `NaN` (here `none`) and `0`
are falsy and give the default `d`; every other number is kept. -/
def jsOrInt (v : Option Int) (d : Int) : Int :=
  match v with
  | some n => if n = 0 then d else n
  | none => d

/-- The JavaScript idiom `x || d` on a number: `0` gives the default. -/
def jsOrQ (x d : ℚ) : ℚ := if x = 0 then d else x

/-! ## JSON-like values -/

/-- JSON-like values flowing through the query parser: the raw query
mapping, the translated MongoDB filter, and aggregation stage payloads.
`jdate src` models `new Date(src)` and `joid hex` models
`new Types.ObjectId(hex)`, each tagged with the source string. -/
inductive JValue where
  | jstr (s : String)
  | jnum (n : Int)
  | jbool (b : Bool)
  | jdate (src : String)
  | joid (hex : String)
  | jobj (entries : List (String × JValue))
  | jarr (elems : List JValue)

/-- JavaScript truthiness of a value: empty strings, `0` and `false` are
falsy; every object (including `{}` and `[]`) is truthy. -/
def jsTruthy : JValue → Bool
  | .jstr s => !s.isEmpty
  | .jnum n => decide (n ≠ 0)
  | .jbool b => b
  | .jdate _ => true
  | .joid _ => true
  | .jobj _ => true
  | .jarr _ => true

/-- JavaScript property read `obj[k]` on an object literal modelled as an
association list. -/
def alookup (k : String) : List (String × JValue) → Option JValue
  | [] => none
  | (k', v) :: rest => if k' = k then some v else alookup k rest

/-- JavaScript property write `obj[k] = v`: overwrite in place when the
key exists, otherwise append (insertion order is preserved). -/
def setKey (l : List (String × JValue)) (k : String) (v : JValue) : List (String × JValue) :=
  if l.any fun kv => decide (kv.1 = k) then
    l.map fun kv => if kv.1 = k then (kv.1, v) else kv
  else l ++ [(k, v)]

/-- The JavaScript idiom `v || d` on a possibly missing property value. -/
def jsOrJ (v : Option JValue) (d : JValue) : JValue :=
  match v with
  | some x => if jsTruthy x then x else d
  | none => d

/-! ## QueryParser.filter (filter translation)

`QueryParser.filter` removes the excluded fields from a copy of the raw
query, serializes the rest with `JSON.stringify`, runs the operator
regex over the whole JSON text, and parses the result back with
`JSON.parse`.  Because the operator tokens contain no JSON punctuation
and every key and string value of the JSON text is delimited by
non-word characters (quotes, braces, commas, colons), the textual
replacement is exactly the structural replacement of `replaceOps` over
every key and every string value of the tree, which is how it is
modelled here (`replaceEntries`). -/

mutual

/-- Structural effect of the operator regex on a parsed JSON value. -/
def replaceJ : JValue → JValue
  | .jstr s => .jstr (replaceOps s)
  | .jnum n => .jnum n
  | .jbool b => .jbool b
  | .jdate d => .jdate d
  | .joid h => .joid h
  | .jobj entries => .jobj (replaceEntries entries)
  | .jarr elems => .jarr (replaceElems elems)

/-- Operator replacement over the key/value pairs of a JSON object. -/
def replaceEntries : List (String × JValue) → List (String × JValue)
  | [] => []
  | (k, v) :: rest => (replaceOps k, replaceJ v) :: replaceEntries rest

/-- Operator replacement over the elements of a JSON array. -/
def replaceElems : List JValue → List JValue
  | [] => []
  | v :: rest => replaceJ v :: replaceElems rest

end

/-- The default `excludeFields` of the `QueryParser` constructor:
`['page', 'limit', 'sort', 'fields']`. -/
def excludeFieldsDefault : List String := ["page", "limit", "sort", "fields"]

/-- The per-key body of `QueryParser.handleSpecialQueries`: the original
value is read once into `value`; each pattern tests `value` and, when it
fires, overwrites the stored entry (so a later pattern can overwrite an
earlier one, but all tests see the original value).  The patterns are:
comma-separated string to `$in`, ObjectId coercion for keys containing
`id`, boolean coercion, and `$regex` normalization with `$options`
defaulting to `'i'`. -/
def specialTransform (key : String) (value : JValue) : JValue :=
  let v1 : JValue :=
    match value with
    | .jstr s =>
      if s.data.contains ',' then .jobj [("$in", .jarr ((splitComma s).map JValue.jstr))]
      else value
    | _ => value
  let v2 : JValue :=
    match value with
    | .jstr s =>
      if strContainsSub (strToLower key) "id" && isValidObjectId s then .joid s else v1
    | _ => v1
  let v3 : JValue :=
    match value with
    | .jstr s =>
      if strToLower s = "true" then .jbool true
      else if strToLower s = "false" then .jbool false
      else v2
    | _ => v2
  match value with
  | .jobj entries =>
    match alookup "$regex" entries with
    | some rv =>
      if jsTruthy rv then
        .jobj [("$regex", rv), ("$options", jsOrJ (alookup "$options" entries) (.jstr "i"))]
      else v3
    | none => v3
  | _ => v3

/-- The range operators recognized by `QueryParser.handleDateRanges`. -/
def rangeOps : List String := ["$gte", "$gt", "$lte", "$lt"]

/-- One key/value pair of an operator mapping under
`QueryParser.handleDateRanges`: a string value under a range operator
that passes `isValidDate` is replaced by `new Date(value)`. -/
def dateEntryStep (kv : String × JValue) : String × JValue :=
  if rangeOps.contains kv.1 then
    match kv.2 with
    | .jstr s => if isValidDateJS s then (kv.1, .jdate s) else kv
    | _ => kv
  else kv

/-- Effect of `QueryParser.handleDateRanges` on a single top-level value: only
object values are inspected, and only their range-operator keys. -/
def dateTransform : JValue → JValue
  | .jobj entries => .jobj (entries.map dateEntryStep)
  | v => v

/-- Model of `QueryParser.filter()` followed by `handleSpecialQueries` (which
itself ends by conjoining the `$text` predicate from the reserved
`search` key of the original query, then running `handleDateRanges`).
Input and output are insertion-ordered key/value mappings. -/
def queryParserFilter (query : List (String × JValue)) : List (String × JValue) :=
  let filteredQuery := query.filter fun kv => !(excludeFieldsDefault.contains kv.1)
  let mongoQuery := replaceEntries filteredQuery
  let afterSpecial := mongoQuery.map fun kv => (kv.1, specialTransform kv.1 kv.2)
  let afterSearch :=
    match alookup "search" query with
    | some v =>
      if jsTruthy v then setKey afterSpecial "$text" (.jobj [("$search", v)]) else afterSpecial
    | none => afterSpecial
  afterSearch.map fun kv => (kv.1, dateTransform kv.2)

/-! ## QueryParser.paginate and the pagination metadata -/

/-- The `paginationOptions` object computed by `QueryParser.paginate`. -/
structure PaginationOptions where
  page : Int
  limit : Int
  skip : Int

/-- Model of `parseInt(this.query.page) || 1` (the raw page value of an HTTP
query string is an optional string). -/
def parsedPage (p : Option String) : Int := jsOrInt (p.bind parseIntJS) 1

/-- Model of `parseInt(this.query.limit) || 10`. -/
def parsedLimit (l : Option String) : Int := jsOrInt (l.bind parseIntJS) 10

/-- Model of `QueryParser.paginate`: `skip` is computed from the raw parsed limit
before the `Math.min(limit, 100)` clamp is stored. -/
def queryParserPaginate (p l : Option String) : PaginationOptions :=
  ⟨parsedPage p, min (parsedLimit l) 100, (parsedPage p - 1) * parsedLimit l⟩

/-- Pagination metadata with an integer `page`, as assembled by
`QueryParser.execute` and `UniversalPipelineBuilder.exec`. -/
structure PagInfo where
  page : Int
  limit : Int
  total : Nat
  pages : Int
  hasNext : Bool
  hasPrev : Bool

/-- Pagination metadata with a JavaScript-number `page` (modelled as a
rational), as assembled by `UniversalQueryBuilder.exec`, whose page is
recomputed as `skip / limit + 1`. -/
structure PagInfoQ where
  page : ℚ
  limit : Int
  total : Nat
  pages : Int
  hasNext : Bool
  hasPrev : Bool

/-- The pagination object literal of `QueryParser.execute`:
`pages = Math.ceil(total / limit)`,
`hasNext = page < Math.ceil(total / limit)`, `hasPrev = page > 1`. -/
def qpMkPagInfo (page limit : Int) (total : Nat) : PagInfo :=
  ⟨page, limit, total,
    ⌈(total : ℚ) / (limit : ℚ)⌉,
    decide ((page : ℚ) < ⌈(total : ℚ) / (limit : ℚ)⌉),
    decide (1 < page)⟩

/-- The pagination object literal of `UniversalQueryBuilder.exec`:
`pages = Math.ceil(total / limit)`, `hasNext = page * limit < total`,
`hasPrev = page > 1`, with the recomputed (possibly fractional) page. -/
def uqbMkPagInfo (page : ℚ) (limit : Int) (total : Nat) : PagInfoQ :=
  ⟨page, limit, total,
    ⌈(total : ℚ) / (limit : ℚ)⌉,
    decide (page * (limit : ℚ) < (total : ℚ)),
    decide (1 < page)⟩

/-- The pagination object literal of `UniversalPipelineBuilder.exec`:
`pages = Math.ceil(total / limit)`, `hasNext = page * limit < total`,
`hasPrev = page > 1`. -/
def upbMkPagInfo (page limit : Int) (total : Nat) : PagInfo :=
  ⟨page, limit, total,
    ⌈(total : ℚ) / (limit : ℚ)⌉,
    decide (page * limit < (total : Int)),
    decide (1 < page)⟩

/-- Ceiling division on naturals, the specification's
`pages = ceil(total / limit)` for `limit ≥ 1`. -/
def natCeilDiv (a b : Nat) : Nat := (a + b - 1) / b

/-! ## Aggregation pipeline stages and the two builders -/

/-- An aggregation pipeline stage, the tagged variants pushed by
`UniversalQueryBuilder` / `UniversalPipelineBuilder` (`$match`,
`$lookup`, `$unwind`, `$addFields`, `$project`, `$sort`, `$skip`,
`$limit`). -/
inductive Stage where
  | smatch (filter : JValue)
  | slookup (cfg : JValue)
  | sunwind (cfg : JValue)
  | saddFields (fields : List (String × JValue))
  | sproject (fields : List (String × JValue))
  | ssort (spec : List (String × Int))
  | sskip (n : Int)
  | slimit (n : Int)

/-- Is the stage a `$match` stage at all. -/
def isMatchStage : Stage → Bool
  | .smatch _ => true
  | _ => false

/-- Is the stage a `$skip` stage at all. -/
def isSkipStage : Stage → Bool
  | .sskip _ => true
  | _ => false

/-- Is the stage a `$limit` stage at all. -/
def isLimitStage : Stage → Bool
  | .slimit _ => true
  | _ => false

/-- The predicate of `pipeline.find(p => p.$match)`: a stage whose
`$match` property is truthy (on a non-match stage the property is
`undefined`, which is falsy). -/
def truthyMatch : Stage → Bool
  | .smatch f => jsTruthy f
  | _ => false

/-- The predicate of `pipeline.find(p => p.$skip)`: note that a
`{$skip: 0}` stage is NOT found, because the number `0` is falsy. -/
def truthySkip : Stage → Bool
  | .sskip n => decide (n ≠ 0)
  | _ => false

/-- The predicate of `pipeline.find(p => p.$limit)`. -/
def truthyLimit : Stage → Bool
  | .slimit n => decide (n ≠ 0)
  | _ => false

/-- Model of `this.pipeline.find(p => p.$match)?.$match || {}`: the filter of the
first stage with a truthy `$match` property, or the empty (always-true)
filter. -/
def matchFilterOf (pipeline : List Stage) : JValue :=
  match pipeline.find? truthyMatch with
  | some (.smatch f) => f
  | _ => .jobj []

/-- Model of `this.pipeline.find(p => p.$skip)?.$skip` as an optional number. -/
def findSkipVal (pipeline : List Stage) : Option Int :=
  match pipeline.find? truthySkip with
  | some (.sskip n) => some n
  | _ => none

/-- Model of `this.pipeline.find(p => p.$limit)?.$limit` as an optional number. -/
def findLimitVal (pipeline : List Stage) : Option Int :=
  match pipeline.find? truthyLimit with
  | some (.slimit n) => some n
  | _ => none

/-- The `page` recomputed by `UniversalQueryBuilder.exec`:
`pipeline.find(p => p.$skip)?.$skip / pipeline.find(p => p.$limit)?.$limit + 1 || 1`.
When either find misses, the arithmetic on `undefined` yields `NaN`,
which is falsy, so `|| 1` gives `1`; otherwise the (possibly fractional)
quotient plus one is kept unless it equals `0`. -/
def execPageUQB (pipeline : List Stage) : ℚ :=
  match findSkipVal pipeline, findLimitVal pipeline with
  | some s, some l => jsOrQ ((s : ℚ) / (l : ℚ) + 1) 1
  | _, _ => 1

/-- The `limit` recomputed by `UniversalQueryBuilder.exec`:
`pipeline.find(p => p.$limit)?.$limit || 20`. -/
def execLimitUQB (pipeline : List Stage) : Int :=
  match findLimitVal pipeline with
  | some l => l
  | none => 20

/-- Model of `UniversalQueryBuilder.paginate(page, limit)`: appends
`{$skip: (page - 1) * limit}` and `{$limit: limit}`. -/
def uqbPaginateStages (page limit : Int) : List Stage :=
  [.sskip ((page - 1) * limit), .slimit limit]

/-- The pagination object assembled by `UniversalQueryBuilder.exec`
with pagination enabled, given the collaborator's count function
(`Model.countDocuments`) as a parameter: the reported total is the
count under the filter of the first truthy `$match` stage. -/
def uqbExecPagInfo (countFn : JValue → Nat) (pipeline : List Stage) : PagInfoQ :=
  uqbMkPagInfo (execPageUQB pipeline) (execLimitUQB pipeline) (countFn (matchFilterOf pipeline))

/-- The pipeline actually executed by `UniversalPipelineBuilder.exec`:
the accumulated stages, then `{$sort: this.sort}`, then (when paginating)
`{$skip: (page - 1) * limit}` and `{$limit: limit}`. -/
def upbFinalPipeline (pipeline : List Stage) (sortSpec : List (String × Int))
    (page limit : Int) (withPagination : Bool) : List Stage :=
  pipeline ++ [.ssort sortSpec] ++
    (if withPagination then [.sskip ((page - 1) * limit), .slimit limit] else [])

/-- The pagination object assembled by `UniversalPipelineBuilder.exec`
with pagination enabled: the total is the collaborator's count under the
first truthy `$match` stage of the executed pipeline. -/
def upbExecPagInfo (countFn : JValue → Nat) (pipeline : List Stage)
    (sortSpec : List (String × Int)) (page limit : Int) : PagInfo :=
  upbMkPagInfo page limit
    (countFn (matchFilterOf (upbFinalPipeline pipeline sortSpec page limit true)))

/-! ## Pagination arithmetic lemmas -/

/-- For a positive limit, being strictly below the ceiling quotient is
the same as `page * limit < total`. -/
theorem lt_natCeilDiv_iff (t l p : Nat) (hl : 1 ≤ l) :
    p < natCeilDiv t l ↔ p * l < t := by
  unfold natCeilDiv
  rw [Nat.lt_iff_add_one_le, Nat.le_div_iff_mul_le (by omega), Nat.add_mul, Nat.one_mul]
  generalize p * l = m
  omega

/-- Evaluating `Math.ceil(total / limit)` on nonnegative integers with a positive
limit is exactly the natural ceiling division. -/
theorem ceil_ratCast_eq_natCeilDiv (t l : Nat) (hl : 1 ≤ l) :
    ⌈(t : ℚ) / (l : ℚ)⌉ = (natCeilDiv t l : Int) := by
  have hl0 : (0 : ℚ) < (l : ℚ) := by exact_mod_cast hl
  unfold natCeilDiv
  set n := (t + l - 1) / l with hn
  have hmod := Nat.div_add_mod (t + l - 1) l
  have hr : (t + l - 1) % l < l := Nat.mod_lt _ (by omega)
  have h1 : t ≤ l * n := by
    rw [← hn] at hmod
    generalize l * n = m at hmod ⊢
    omega
  have h2 : l * n < t + l := by
    rw [← hn] at hmod
    generalize l * n = m at hmod ⊢
    omega
  rw [Int.ceil_eq_iff]
  have h1q : (t : ℚ) ≤ (l : ℚ) * (n : ℚ) := by exact_mod_cast h1
  have h2q : (l : ℚ) * (n : ℚ) < (t : ℚ) + (l : ℚ) := by exact_mod_cast h2
  refine ⟨?_, ?_⟩
  · rw [lt_div_iff₀ hl0]
    push_cast
    nlinarith [h2q]
  · rw [div_le_iff₀ hl0]
    push_cast
    nlinarith [h1q]

/-- C1.  For every integer `page ≥ 1`, `limit ≥ 1` and `total ≥ 0`, the
pagination objects assembled by `QueryParser.execute`,
`UniversalQueryBuilder.exec` and `UniversalPipelineBuilder.exec` all
satisfy `pages = ceil(total / limit)`,
`hasNext ↔ page * limit < total` and `hasPrev ↔ page > 1`; in
particular `QueryParser.execute`'s `hasNext`, computed as
`page < Math.ceil(total / limit)`, is equivalent to
`page * limit < total`. -/
theorem pagination_math_all_builders (page limit total : Nat)
    (hp : 1 ≤ page) (hl : 1 ≤ limit) :
    ((qpMkPagInfo page limit total).pages = (natCeilDiv total limit : Int) ∧
      ((qpMkPagInfo page limit total).hasNext = true ↔ page * limit < total) ∧
      ((qpMkPagInfo page limit total).hasPrev = true ↔ 1 < page)) ∧
    ((uqbMkPagInfo page limit total).pages = (natCeilDiv total limit : Int) ∧
      ((uqbMkPagInfo page limit total).hasNext = true ↔ page * limit < total) ∧
      ((uqbMkPagInfo page limit total).hasPrev = true ↔ 1 < page)) ∧
    ((upbMkPagInfo page limit total).pages = (natCeilDiv total limit : Int) ∧
      ((upbMkPagInfo page limit total).hasNext = true ↔ page * limit < total) ∧
      ((upbMkPagInfo page limit total).hasPrev = true ↔ 1 < page)) := by
  have hceil := ceil_ratCast_eq_natCeilDiv total limit hl
  refine ⟨⟨hceil, ?_, ?_⟩, ⟨hceil, ?_, ?_⟩, ⟨hceil, ?_, ?_⟩⟩
  · show decide ((page : ℚ) < ⌈(total : ℚ) / (limit : ℚ)⌉) = true ↔ _
    rw [decide_eq_true_iff, hceil]
    have : ((page : ℚ) < ((natCeilDiv total limit : Int) : ℚ)) ↔
        page < natCeilDiv total limit := by exact_mod_cast Iff.rfl
    rw [this, lt_natCeilDiv_iff total limit page hl]
  · show decide ((1 : Int) < (page : Int)) = true ↔ _
    rw [decide_eq_true_iff]
    exact_mod_cast Iff.rfl
  · show decide ((page : ℚ) * ((limit : Int) : ℚ) < (total : ℚ)) = true ↔ _
    rw [decide_eq_true_iff]
    push_cast
    exact_mod_cast Iff.rfl
  · show decide ((1 : ℚ) < (page : ℚ)) = true ↔ _
    rw [decide_eq_true_iff]
    exact_mod_cast Iff.rfl
  · show decide ((page : Int) * (limit : Int) < (total : Int)) = true ↔ _
    rw [decide_eq_true_iff]
    exact_mod_cast Iff.rfl
  · show decide ((1 : Int) < (page : Int)) = true ↔ _
    rw [decide_eq_true_iff]
    exact_mod_cast Iff.rfl

/-- Witness for C1 at `page = 2`, `limit = 5`, `total = 12`. -/
theorem pagination_math_all_builders_witness :
    (1 ≤ 2 ∧ 1 ≤ 5) ∧
      (((qpMkPagInfo 2 5 12).pages = (natCeilDiv 12 5 : Int) ∧
        ((qpMkPagInfo 2 5 12).hasNext = true ↔ 2 * 5 < 12) ∧
        ((qpMkPagInfo 2 5 12).hasPrev = true ↔ 1 < 2)) ∧
      ((uqbMkPagInfo 2 5 12).pages = (natCeilDiv 12 5 : Int) ∧
        ((uqbMkPagInfo 2 5 12).hasNext = true ↔ 2 * 5 < 12) ∧
        ((uqbMkPagInfo 2 5 12).hasPrev = true ↔ 1 < 2)) ∧
      ((upbMkPagInfo 2 5 12).pages = (natCeilDiv 12 5 : Int) ∧
        ((upbMkPagInfo 2 5 12).hasNext = true ↔ 2 * 5 < 12) ∧
        ((upbMkPagInfo 2 5 12).hasPrev = true ↔ 1 < 2))) :=
  ⟨⟨by decide, by decide⟩, pagination_math_all_builders 2 5 12 (by decide) (by decide)⟩

/-! ## Claims about QueryParser.paginate -/

/-- C2 counterexample.  For the raw query `page=2&limit=200`,
`QueryParser.paginate` stores `skip = 200` (computed from the raw parsed
limit) while `(page - 1) * effective limit = (2 - 1) * 100 = 100`, so
the claimed invariant `skip = (page - 1) * min(limit, 100)` fails. -/
theorem paginate_skip_uses_raw_limit :
    (queryParserPaginate (some "2") (some "200")).skip = 200 ∧
      ((queryParserPaginate (some "2") (some "200")).page - 1) *
        (queryParserPaginate (some "2") (some "200")).limit = 100 ∧
      (queryParserPaginate (some "2") (some "200")).skip ≠
        ((queryParserPaginate (some "2") (some "200")).page - 1) *
          (queryParserPaginate (some "2") (some "200")).limit := by
  refine ⟨by decide, by decide, by decide⟩

/-- C2 amended.  For every raw query, the skip stored by
`QueryParser.paginate` is `(page - 1) *` the RAW parsed limit (before
the `Math.min(limit, 100)` clamp); it equals `(page - 1) * effective
limit` exactly when the parsed limit is at most 100. -/
theorem paginate_skip_invariant (p l : Option String) :
    (queryParserPaginate p l).skip = ((queryParserPaginate p l).page - 1) * parsedLimit l ∧
      (parsedLimit l ≤ 100 →
        (queryParserPaginate p l).skip =
          ((queryParserPaginate p l).page - 1) * (queryParserPaginate p l).limit) := by
  constructor
  · rfl
  · intro h
    show (parsedPage p - 1) * parsedLimit l = (parsedPage p - 1) * min (parsedLimit l) 100
    rw [min_eq_left h]

/-- Witness for the amended C2 at `page=2&limit=50`. -/
theorem paginate_skip_invariant_witness :
    (queryParserPaginate (some "2") (some "50")).skip =
      ((queryParserPaginate (some "2") (some "50")).page - 1) * parsedLimit (some "50") ∧
      (parsedLimit (some "50") ≤ 100 ∧
        (queryParserPaginate (some "2") (some "50")).skip =
          ((queryParserPaginate (some "2") (some "50")).page - 1) *
            (queryParserPaginate (some "2") (some "50")).limit) :=
  ⟨(paginate_skip_invariant (some "2") (some "50")).1,
    by decide, (paginate_skip_invariant (some "2") (some "50")).2 (by decide)⟩

/-- C4 counterexample.  A requested limit of `"-5"` parses to `-5`,
which is truthy, so neither the `|| 10` default nor the
`Math.min(·, 100)` clamp repairs it: the effective limit is `-5`,
not the claimed `10`. -/
theorem paginate_negative_limit_kept :
    (queryParserPaginate none (some "-5")).limit = -5 ∧
      (queryParserPaginate none (some "-5")).limit ≠ 10 := by
  refine ⟨by decide, by decide⟩

/-- C4 amended.  A requested limit parsing to a number above 100 is
clamped to 100; a non-numeric limit (`parseInt` gives `NaN`) or one
parsing to `0` defaults to 10; a non-numeric or zero page defaults
to 1; but a limit parsing to a NEGATIVE number is kept as-is (the
`|| 10` default only catches `NaN` and `0`). -/
theorem paginate_clamps_and_defaults (p l : Option String) :
    (∀ n : Int, l.bind parseIntJS = some n → 100 < n →
        (queryParserPaginate p l).limit = 100) ∧
      ((l.bind parseIntJS = none ∨ l.bind parseIntJS = some 0) →
        (queryParserPaginate p l).limit = 10) ∧
      ((p.bind parseIntJS = none ∨ p.bind parseIntJS = some 0) →
        (queryParserPaginate p l).page = 1) ∧
      (∀ n : Int, l.bind parseIntJS = some n → n < 0 →
        (queryParserPaginate p l).limit = n) := by
  have hsome : ∀ (n : Int) (d : Int), jsOrInt (some n) d = if n = 0 then d else n :=
    fun _ _ => rfl
  have hnone : ∀ d : Int, jsOrInt none d = d := fun _ => rfl
  refine ⟨?_, ?_, ?_, ?_⟩
  · intro n hn h100
    show min (parsedLimit l) 100 = 100
    unfold parsedLimit
    rw [hn, hsome, if_neg (by omega)]
    omega
  · intro h
    show min (parsedLimit l) 100 = 10
    unfold parsedLimit
    rcases h with h | h
    · rw [h, hnone]; decide
    · rw [h, hsome, if_pos rfl]; decide
  · intro h
    show parsedPage p = 1
    unfold parsedPage
    rcases h with h | h
    · rw [h, hnone]
    · rw [h, hsome, if_pos rfl]
  · intro n hn hneg
    show min (parsedLimit l) 100 = n
    unfold parsedLimit
    rw [hn, hsome, if_neg (by omega)]
    omega

/-- Witness for the amended C4: limit `"200"` clamps to 100, limit
`"abc"` defaults to 10, page `"abc"` defaults to 1, limit `"-5"` stays
`-5`. -/
theorem paginate_clamps_and_defaults_witness :
    (queryParserPaginate (some "abc") (some "200")).limit = 100 ∧
      (queryParserPaginate none (some "abc")).limit = 10 ∧
      (queryParserPaginate (some "abc") none).page = 1 ∧
      (queryParserPaginate none (some "-5")).limit = -5 :=
  ⟨(paginate_clamps_and_defaults (some "abc") (some "200")).1 200 (by decide) (by decide),
    (paginate_clamps_and_defaults none (some "abc")).2.1 (Or.inl (by decide)),
    (paginate_clamps_and_defaults (some "abc") none).2.2.1 (Or.inl (by decide)),
    (paginate_clamps_and_defaults none (some "-5")).2.2.2 (-5) (by decide) (by decide)⟩

/-! ## Claims about the aggregation builders -/

/-- A stage that is not a `$match` stage never satisfies the match-find
predicate. -/
theorem truthyMatch_eq_false_of_not_match (s : Stage) (h : isMatchStage s = false) :
    truthyMatch s = false := by
  cases s <;> simp_all [isMatchStage, truthyMatch]

/-- Appending match-free stages to a pipeline leaves the filter used by
the count query unchanged. -/
theorem matchFilterOf_append (pipeline extra : List Stage)
    (h : ∀ s ∈ extra, isMatchStage s = false) :
    matchFilterOf (pipeline ++ extra) = matchFilterOf pipeline := by
  unfold matchFilterOf
  rw [List.find?_append]
  have hnone : extra.find? truthyMatch = none := by
    rw [List.find?_eq_none]
    intro s hs
    simp [truthyMatch_eq_false_of_not_match s (h s hs)]
  rw [hnone]
  cases pipeline.find? truthyMatch <;> rfl

/-- C5.  In both aggregation builders the reported total is the
collaborator's count under the filter of the pipeline's first (truthy)
`$match` stage alone — the empty always-true filter when there is
none — so appending `$addFields`, `$project`, `$sort`, `$lookup`,
`$unwind`, `$skip` or `$limit` stages after the match never changes the
reported total.  (`UniversalPipelineBuilder.exec` itself appends sort
and pagination stages before counting; they are match-free, so they do
not change the filter either.) -/
theorem aggregation_total_from_first_match (countFn : JValue → Nat)
    (pipeline extra : List Stage) (sortSpec : List (String × Int)) (page limit : Int)
    (h : ∀ s ∈ extra, isMatchStage s = false) :
    (uqbExecPagInfo countFn pipeline).total = countFn (matchFilterOf pipeline) ∧
      (uqbExecPagInfo countFn (pipeline ++ extra)).total = countFn (matchFilterOf pipeline) ∧
      (upbExecPagInfo countFn pipeline sortSpec page limit).total =
        countFn (matchFilterOf pipeline) ∧
      (upbExecPagInfo countFn (pipeline ++ extra) sortSpec page limit).total =
        countFn (matchFilterOf pipeline) := by
  have htotal1 : ∀ q : List Stage,
      (uqbExecPagInfo countFn q).total = countFn (matchFilterOf q) := fun _ => rfl
  have htotal2 : ∀ q : List Stage,
      (upbExecPagInfo countFn q sortSpec page limit).total =
        countFn (matchFilterOf (q ++ [Stage.ssort sortSpec,
          Stage.sskip ((page - 1) * limit), Stage.slimit limit])) := by
    intro q
    have hshape : upbFinalPipeline q sortSpec page limit true =
        q ++ [Stage.ssort sortSpec, Stage.sskip ((page - 1) * limit), Stage.slimit limit] := by
      unfold upbFinalPipeline
      simp
    show countFn (matchFilterOf (upbFinalPipeline q sortSpec page limit true)) = _
    rw [hshape]
  have htailfree : ∀ s ∈ [Stage.ssort sortSpec,
      Stage.sskip ((page - 1) * limit), Stage.slimit limit], isMatchStage s = false := by
    intro s hs
    simp at hs
    rcases hs with rfl | rfl | rfl <;> rfl
  refine ⟨htotal1 pipeline, ?_, ?_, ?_⟩
  · rw [htotal1, matchFilterOf_append pipeline extra h]
  · rw [htotal2, matchFilterOf_append pipeline _ htailfree]
  · rw [htotal2, List.append_assoc, matchFilterOf_append pipeline _ ?_]
    intro s hs
    rw [List.mem_append] at hs
    rcases hs with hs | hs
    · exact h s hs
    · exact htailfree s hs

/-- Witness for C5: a one-match pipeline with an appended projection and
sort; the hypothesis holds for that match-free extra list. -/
theorem aggregation_total_from_first_match_witness :
    (∀ s ∈ [Stage.sproject [("name", JValue.jnum 1)], Stage.ssort [("createdAt", -1)]],
        isMatchStage s = false) ∧
      (uqbExecPagInfo (fun _ => 7) [Stage.smatch (.jobj [("status", .jstr "active")])]).total =
        (fun _ => 7) (matchFilterOf [Stage.smatch (.jobj [("status", .jstr "active")])]) ∧
      (uqbExecPagInfo (fun _ => 7) ([Stage.smatch (.jobj [("status", .jstr "active")])] ++
          [Stage.sproject [("name", JValue.jnum 1)], Stage.ssort [("createdAt", -1)]])).total =
        (fun _ => 7) (matchFilterOf [Stage.smatch (.jobj [("status", .jstr "active")])]) ∧
      (upbExecPagInfo (fun _ => 7) [Stage.smatch (.jobj [("status", .jstr "active")])]
          [("createdAt", -1)] 2 5).total =
        (fun _ => 7) (matchFilterOf [Stage.smatch (.jobj [("status", .jstr "active")])]) ∧
      (upbExecPagInfo (fun _ => 7) ([Stage.smatch (.jobj [("status", .jstr "active")])] ++
          [Stage.sproject [("name", JValue.jnum 1)], Stage.ssort [("createdAt", -1)]])
          [("createdAt", -1)] 2 5).total =
        (fun _ => 7) (matchFilterOf [Stage.smatch (.jobj [("status", .jstr "active")])]) :=
  ⟨by intro s hs; simp at hs; rcases hs with rfl | rfl <;> rfl,
    aggregation_total_from_first_match (fun _ => 7)
      [Stage.smatch (.jobj [("status", .jstr "active")])]
      [Stage.sproject [("name", JValue.jnum 1)], Stage.ssort [("createdAt", -1)]]
      [("createdAt", -1)] 2 5
      (by intro s hs; simp at hs; rcases hs with rfl | rfl <;> rfl)⟩

/-- A stage that is not a `$skip` stage never satisfies the skip-find
predicate. -/
theorem truthySkip_eq_false_of_not_skip (s : Stage) (h : isSkipStage s = false) :
    truthySkip s = false := by
  cases s <;> simp_all [isSkipStage, truthySkip]

/-- A stage that is not a `$limit` stage never satisfies the limit-find
predicate. -/
theorem truthyLimit_eq_false_of_not_limit (s : Stage) (h : isLimitStage s = false) :
    truthyLimit s = false := by
  cases s <;> simp_all [isLimitStage, truthyLimit]

/-- C10.  For every integer `page ≥ 1` and `limit ≥ 1`, after
`UniversalQueryBuilder.paginate(page, limit)` appends its
`$skip`/`$limit` stages to a pipeline containing no other
`$skip`/`$limit` stages, `exec(true)` reports exactly the original
`page` and `limit`.  For `page = 1` the appended stage is
`{$skip: 0}`, which the truthiness-based `find` does NOT locate; the
`undefined / limit + 1` arithmetic is `NaN`, and the `|| 1` fallback
still reports page 1.  For `page ≥ 2` the skip is exactly divisible by
the limit, so `skip / limit + 1` recovers the page. -/
theorem uqb_paginate_roundtrip (page limit : Int) (prior : List Stage)
    (hp : 1 ≤ page) (hl : 1 ≤ limit)
    (hprior : ∀ s ∈ prior, isSkipStage s = false ∧ isLimitStage s = false) :
    execPageUQB (prior ++ uqbPaginateStages page limit) = (page : ℚ) ∧
      execLimitUQB (prior ++ uqbPaginateStages page limit) = limit := by
  have hpriorSkip : prior.find? truthySkip = none := by
    rw [List.find?_eq_none]
    intro s hs
    simp [truthySkip_eq_false_of_not_skip s (hprior s hs).1]
  have hpriorLimit : prior.find? truthyLimit = none := by
    rw [List.find?_eq_none]
    intro s hs
    simp [truthyLimit_eq_false_of_not_limit s (hprior s hs).2]
  have hlimitfind : findLimitVal (prior ++ uqbPaginateStages page limit) = some limit := by
    unfold findLimitVal uqbPaginateStages
    rw [List.find?_append, hpriorLimit]
    show (match List.find? truthyLimit _ with
          | some (.slimit n) => some n
          | _ => none) = some limit
    have h1 : truthyLimit (Stage.sskip ((page - 1) * limit)) = false := rfl
    have h2 : truthyLimit (Stage.slimit limit) = true := by
      show decide (limit ≠ 0) = true
      rw [decide_eq_true_iff]
      omega
    rw [List.find?]
    rw [h1]
    rw [List.find?]
    rw [h2]
  have hlim : execLimitUQB (prior ++ uqbPaginateStages page limit) = limit := by
    unfold execLimitUQB
    rw [hlimitfind]
  refine ⟨?_, hlim⟩
  by_cases hpage1 : page = 1
  · have hskipfind : findSkipVal (prior ++ uqbPaginateStages page limit) = none := by
      unfold findSkipVal uqbPaginateStages
      rw [List.find?_append, hpriorSkip]
      have h1 : truthySkip (Stage.sskip ((page - 1) * limit)) = false := by
        show decide ((page - 1) * limit ≠ 0) = false
        rw [decide_eq_false_iff_not]
        rw [hpage1]
        simp
      have h2 : truthySkip (Stage.slimit limit) = false := rfl
      rw [List.find?]
      rw [h1]
      rw [List.find?]
      rw [h2]
      rfl
    unfold execPageUQB
    rw [hskipfind, hpage1]
    rfl
  · have hskipne : (page - 1) * limit ≠ 0 := by
      have : page - 1 ≠ 0 := by omega
      intro hcontra
      rcases mul_eq_zero.mp hcontra with h' | h'
      · exact this h'
      · omega
    have hskipfind : findSkipVal (prior ++ uqbPaginateStages page limit) =
        some ((page - 1) * limit) := by
      unfold findSkipVal uqbPaginateStages
      rw [List.find?_append, hpriorSkip]
      have h1 : truthySkip (Stage.sskip ((page - 1) * limit)) = true := by
        show decide ((page - 1) * limit ≠ 0) = true
        rw [decide_eq_true_iff]
        exact hskipne
      rw [List.find?]
      rw [h1]
      rfl
    unfold execPageUQB
    rw [hskipfind, hlimitfind]
    have hlq : ((limit : ℚ)) ≠ 0 := by
      intro hc
      have : limit = 0 := by exact_mod_cast hc
      omega
    have hdiv : (((page - 1) * limit : Int) : ℚ) / (limit : ℚ) + 1 = (page : ℚ) := by
      push_cast
      field_simp
    show jsOrQ ((((page - 1) * limit : Int) : ℚ) / (limit : ℚ) + 1) 1 = (page : ℚ)
    rw [hdiv]
    unfold jsOrQ
    rw [if_neg ?_]
    intro hc
    have : page = 0 := by exact_mod_cast hc
    omega

/-- Witness for C10 at `page = 1` and `page = 3` with `limit = 5` over
an empty prior pipeline. -/
theorem uqb_paginate_roundtrip_witness :
    (execPageUQB ([] ++ uqbPaginateStages 1 5) = ((1 : Int) : ℚ) ∧
        execLimitUQB ([] ++ uqbPaginateStages 1 5) = 5) ∧
      (execPageUQB ([] ++ uqbPaginateStages 3 5) = ((3 : Int) : ℚ) ∧
        execLimitUQB ([] ++ uqbPaginateStages 3 5) = 5) :=
  ⟨uqb_paginate_roundtrip 1 5 [] (by decide) (by decide) (by intro s hs; simp at hs),
    uqb_paginate_roundtrip 3 5 [] (by decide) (by decide) (by intro s hs; simp at hs)⟩

/-! ## Claims about QueryParser.filter (operator rewriting) -/

/-- C9.  The operator recognition is a textual regex replacement over
the JSON serialization of the whole query mapping, so standalone
occurrences of the tokens are rewritten inside string VALUES — the
input `{status: 'log in now'}` translates to an equality predicate on
the mutated string `'log $in now'` — and inside field NAMES — a field
literally named `nin` becomes a top-level `$nin` key. -/
theorem operator_rewrite_hits_values_and_keys :
    queryParserFilter [("status", .jstr "log in now")] =
        [("status", .jstr "log $in now")] ∧
      queryParserFilter [("nin", .jstr "5")] = [("$nin", .jstr "5")] := by
  exact ⟨rfl, rfl⟩

/-! ## Claims about date coercion (handleDateRanges) -/

/-- C6 counterexample.  The purely numeric range bound `"2023"` is a
valid date string (the year-only form of the ECMA-262 Date Time String
Format), so `price[gte]=2023` IS turned into a date by the
translation, against the claim's requirement that purely numeric range
bounds must not become dates. -/
theorem numeric_range_bound_becomes_date :
    isValidDateJS "2023" = true ∧
      queryParserFilter [("price", .jobj [("gte", .jstr "2023")])] =
        [("price", .jobj [("$gte", .jdate "2023")])] := by
  exact ⟨rfl, rfl⟩

/-- C6 amended.  For every range-operator clause (`$gte`/`$gt`/`$lte`/
`$lt`), a string value accepted by the host's date parser (every
ECMA-262 Date Time String Format string, i.e. ISO-8601 dates —
including the purely numeric year-only form such as `"2023"`) is
converted to a date value, and a string the parser rejects is left
untouched; non-range operator keys are never date-converted. -/
theorem date_range_coercion (op s : String) (v : JValue) (entries : List (String × JValue)) :
    (op ∈ rangeOps → isValidDateJS s = true →
        dateEntryStep (op, .jstr s) = (op, .jdate s)) ∧
      (op ∈ rangeOps → isValidDateJS s = false →
        dateEntryStep (op, .jstr s) = (op, .jstr s)) ∧
      (op ∉ rangeOps → dateEntryStep (op, v) = (op, v)) ∧
      dateTransform (.jobj entries) = .jobj (entries.map dateEntryStep) ∧
      queryParserFilter [("createdAt", .jobj [("gte", .jstr "2023-01-01")])] =
        [("createdAt", .jobj [("$gte", .jdate "2023-01-01")])] ∧
      queryParserFilter [("price", .jobj [("gte", .jstr "hello")])] =
        [("price", .jobj [("$gte", .jstr "hello")])] := by
  refine ⟨?_, ?_, ?_, rfl, rfl, rfl⟩
  · intro hop hvalid
    simp [dateEntryStep, hop, hvalid]
  · intro hop hvalid
    simp [dateEntryStep, hop, hvalid]
  · intro hop
    simp [dateEntryStep, hop]

/-- Witness for the amended C6 at `$gte` with the ISO date
`"2023-01-01"` and the non-date `"hello"`. -/
theorem date_range_coercion_witness :
    ("$gte" ∈ rangeOps ∧ isValidDateJS "2023-01-01" = true ∧
        dateEntryStep ("$gte", .jstr "2023-01-01") = ("$gte", .jdate "2023-01-01")) ∧
      (isValidDateJS "hello" = false ∧
        dateEntryStep ("$gte", .jstr "hello") = ("$gte", .jstr "hello")) :=
  ⟨⟨by decide, by decide,
      (date_range_coercion "$gte" "2023-01-01" (.jnum 0) []).1 (by decide) (by decide)⟩,
    ⟨by decide,
      (date_range_coercion "$gte" "hello" (.jnum 0) []).2.1 (by decide) (by decide)⟩⟩

/-! ## Claims about identifier coercion (handleSpecialQueries) -/

/-- A well-formed identifier (24 hex characters) contains no comma. -/
theorem valid_oid_no_comma (s : String) (h : isValidObjectId s = true) :
    s.data.contains ',' = false := by
  unfold isValidObjectId at h
  rw [Bool.and_eq_true] at h
  cases hcb : s.data.contains ','
  · rfl
  · exfalso
    have hmem : (',' : Char) ∈ s.data := by simpa using hcb
    have := (List.all_eq_true.mp h.2) ',' hmem
    simp [isHexChar] at this

/-- A well-formed identifier has 24 characters. -/
theorem valid_oid_length (s : String) (h : isValidObjectId s = true) :
    s.data.length = 24 := by
  unfold isValidObjectId at h
  rw [Bool.and_eq_true] at h
  simpa using h.1

/-- A string whose lowercasing is `"true"` or `"false"` has at most 5
characters, so it is never a well-formed identifier. -/
theorem strToLower_eq_length (s t : String) (h : strToLower s = t) :
    s.data.length = t.data.length := by
  have := congrArg String.data h
  unfold strToLower at this
  simp at this
  rw [← this]
  simp

/-- C7 amended.  For every field whose lowercased name contains `id`
and whose string value is a well-formed identifier, the value is
coerced to the native identifier type; a value that is not well-formed
is never identifier-coerced and no error is raised, but it remains
subject to the OTHER translation rules of `handleSpecialQueries`
(comma-split to `$in`, boolean coercion) and only stays a plain
unchanged string when none of those fire.  In particular
`userId='507f1f77bcf86cd799439011'` is coerced while
`userId='not-an-id'` stays a string. -/
theorem id_coercion (k s : String) :
    (strContainsSub (strToLower k) "id" = true → isValidObjectId s = true →
        specialTransform k (.jstr s) = .joid s) ∧
      (isValidObjectId s = false → ∀ hex, specialTransform k (.jstr s) ≠ .joid hex) ∧
      (isValidObjectId s = false → s.data.contains ',' = false →
        ¬strToLower s = "true" → ¬strToLower s = "false" →
        specialTransform k (.jstr s) = .jstr s) ∧
      queryParserFilter [("userId", .jstr "507f1f77bcf86cd799439011")] =
        [("userId", .joid "507f1f77bcf86cd799439011")] ∧
      queryParserFilter [("userId", .jstr "not-an-id")] =
        [("userId", .jstr "not-an-id")] := by
  refine ⟨?_, ?_, ?_, rfl, rfl⟩
  · intro hid hvalid
    have hnc := valid_oid_no_comma s hvalid
    have hlen := valid_oid_length s hvalid
    have ht : ¬strToLower s = "true" := by
      intro hc
      have := strToLower_eq_length s "true" hc
      rw [hlen] at this
      simp at this
    have hf : ¬strToLower s = "false" := by
      intro hc
      have := strToLower_eq_length s "false" hc
      rw [hlen] at this
      simp at this
    simp [specialTransform, hnc, hid, hvalid, ht, hf]
  · intro hvalid hex hcontra
    simp only [specialTransform, hvalid, Bool.and_false] at hcontra
    split_ifs at hcontra <;> simp_all
  · intro hvalid hnc ht hf
    have hnc' : (',' : Char) ∉ s.data := by simpa using hnc
    simp [specialTransform, hnc', hvalid, ht, hf]

/-- C7 counterexample.  The field `userId` with the not-well-formed
string value `"true"` is NOT left unchanged as a plain string: the
boolean coercion of `handleSpecialQueries` still applies and turns it
into the boolean `true`. -/
theorem invalid_id_value_still_coerced :
    queryParserFilter [("userId", .jstr "true")] = [("userId", .jbool true)] ∧
      isValidObjectId "true" = false := by
  exact ⟨rfl, rfl⟩

/-- Witness for the amended C7 at `userId` with a well-formed and a
malformed identifier. -/
theorem id_coercion_witness :
    (strContainsSub (strToLower "userId") "id" = true ∧
        isValidObjectId "507f1f77bcf86cd799439011" = true ∧
        specialTransform "userId" (.jstr "507f1f77bcf86cd799439011") =
          .joid "507f1f77bcf86cd799439011") ∧
      (isValidObjectId "not-an-id" = false ∧
        specialTransform "userId" (.jstr "not-an-id") ≠ .joid "deadbeef" ∧
        specialTransform "userId" (.jstr "not-an-id") = .jstr "not-an-id") :=
  ⟨⟨by decide, by decide,
      (id_coercion "userId" "507f1f77bcf86cd799439011").1 (by decide) (by decide)⟩,
    ⟨by decide,
      (id_coercion "userId" "not-an-id").2.1 (by decide) "deadbeef",
      (id_coercion "userId" "not-an-id").2.2.1 (by decide) (by decide)
        (by decide) (by decide)⟩⟩

/-! ## Structural facts about the operator replacement -/

/-- A successful token match returns a listed token and splits the
input at it. -/
theorem tryTokens_sound (ts : List (List Char)) (cs t rest' : List Char)
    (h : tryTokens ts cs = some (t, rest')) : t ∈ ts ∧ cs = t ++ rest' := by
  induction ts with
  | nil => simp [tryTokens] at h
  | cons t0 ts ih =>
    rw [tryTokens] at h
    split_ifs at h with hcond
    · rw [Bool.and_eq_true] at hcond
      obtain ⟨ht, hrest⟩ : t0 = t ∧ cs.drop t0.length = rest' := by
        have hinj := Option.some.inj h
        exact ⟨congrArg Prod.fst hinj, congrArg Prod.snd hinj⟩
      have hpre : t0 <+: cs := by
        rw [← List.isPrefixOf_iff_prefix]
        exact hcond.1
      have happ : t0 ++ cs.drop t0.length = cs := List.prefix_iff_eq_append.mp hpre
      constructor
      · rw [← ht]
        exact List.mem_cons_self t0 ts
      · rw [← ht, ← hrest, happ]
    · have hrec := ih h
      exact ⟨List.mem_cons_of_mem t0 hrec.1, hrec.2⟩

/-- The replacement output is either the input unchanged or it contains
an inserted dollar sign. -/
theorem replaceAux_eq_or_dollar (fuel : Nat) (atB : Bool) (cs : List Char) :
    replaceAux fuel atB cs = cs ∨ '$' ∈ replaceAux fuel atB cs := by
  induction fuel generalizing atB cs with
  | zero => exact Or.inl rfl
  | succ fuel ih =>
    cases cs with
    | nil => exact Or.inl rfl
    | cons c rest =>
      rw [replaceAux]
      cases htok : (if atB then tryTokens opTokens (c :: rest) else none) with
      | none =>
        rcases ih (!jsWordChar c) rest with h | h
        · exact Or.inl (by rw [h])
        · exact Or.inr (List.mem_cons_of_mem c h)
      | some tr =>
        obtain ⟨t, rest2⟩ := tr
        exact Or.inr (List.mem_cons_self _ _)

/-- The replacement never deletes a comma. -/
theorem replaceAux_comma (fuel : Nat) (atB : Bool) (cs : List Char)
    (h : (',' : Char) ∈ cs) : (',' : Char) ∈ replaceAux fuel atB cs := by
  induction fuel generalizing atB cs with
  | zero => exact h
  | succ fuel ih =>
    cases cs with
    | nil => exact h
    | cons c rest =>
      rw [replaceAux]
      cases htok : (if atB then tryTokens opTokens (c :: rest) else none) with
      | none =>
        rcases List.mem_cons.mp h with hc | hc
        · exact List.mem_cons.mpr (Or.inl hc)
        · exact List.mem_cons_of_mem c (ih (!jsWordChar c) rest hc)
      | some tr =>
        obtain ⟨t, rest2⟩ := tr
        have hsound : t ∈ opTokens ∧ c :: rest = t ++ rest2 := by
          apply tryTokens_sound opTokens (c :: rest) t rest2
          cases atB with
          | false => simp at htok
          | true => simpa using htok
        have hnotin : (',' : Char) ∉ t := by
          have hmem := hsound.1
          fin_cases hmem <;> decide
        have hin : (',' : Char) ∈ rest2 := by
          rw [hsound.2] at h
          rcases List.mem_append.mp h with h' | h'
          · exact absurd h' hnotin
          · exact h'
        exact List.mem_cons_of_mem _ (List.mem_append_right t (ih false rest2 hin))

/-- Lemma: `replaceOps` either leaves a string unchanged or inserts a `$`. -/
theorem replaceOps_eq_self_or_dollar (s : String) :
    replaceOps s = s ∨ '$' ∈ (replaceOps s).data := by
  rcases replaceAux_eq_or_dollar s.data.length true s.data with h | h
  · left
    show String.mk (replaceAux s.data.length true s.data) = s
    rw [h]
  · right
    exact h

/-- Lemma: `replaceOps` preserves the presence of a comma. -/
theorem replaceOps_comma (s : String) (h : (',' : Char) ∈ s.data) :
    (',' : Char) ∈ (replaceOps s).data :=
  replaceAux_comma s.data.length true s.data h

/-! ## Claims about the comma-to-in translation -/

/-- A string containing a comma is never a well-formed identifier. -/
theorem invalid_oid_of_comma (s : String) (h : (',' : Char) ∈ s.data) :
    isValidObjectId s = false := by
  cases hv : isValidObjectId s
  · rfl
  · exfalso
    have := valid_oid_no_comma s hv
    rw [← Bool.not_eq_true, List.contains_iff_exists_mem_beq] at this
    exact this ⟨',', h, by decide⟩

/-- A string containing a comma never lowercases to `"true"` or
`"false"`. -/
theorem comma_not_boolean_string (s : String) (h : (',' : Char) ∈ s.data) :
    ¬strToLower s = "true" ∧ ¬strToLower s = "false" := by
  have hmem : (',' : Char) ∈ (strToLower s).data := by
    show (',' : Char) ∈ s.data.map Char.toLower
    have hc : Char.toLower ',' = ',' := by decide
    rw [← hc]
    exact List.mem_map_of_mem Char.toLower h
  constructor
  · intro hc
    rw [hc] at hmem
    simp at hmem
  · intro hc
    rw [hc] at hmem
    simp at hmem

/-- The comma branch of `handleSpecialQueries`: a string value with a
comma becomes an `$in` clause over the comma-split parts, and no later
branch (identifier, boolean, regex) overwrites it. -/
theorem specialTransform_comma (k s : String) (h : (',' : Char) ∈ s.data) :
    specialTransform k (.jstr s) =
      .jobj [("$in", .jarr ((splitComma s).map JValue.jstr))] := by
  have hvalid := invalid_oid_of_comma s h
  have hbool := comma_not_boolean_string s h
  simp [specialTransform, h, hvalid, hbool.1, hbool.2]

/-- C8 counterexample.  For the field `status` with value
`'log in,now'`, the operator regex mutates the value to
`'log $in,now'` BEFORE the comma split, so the translation produces an
`$in` clause over `{'log $in', 'now'}`, not over the comma-split parts
`{'log in', 'now'}` of the original value. -/
theorem comma_split_happens_after_rewrite :
    queryParserFilter [("status", .jstr "log in,now")] =
        [("status", .jobj [("$in", .jarr [.jstr "log $in", .jstr "now"])])] ∧
      splitComma "log in,now" = ["log in", "now"] ∧
      ["log $in", "now"] ≠ ["log in", "now"] := by
  exact ⟨rfl, rfl, by decide⟩

/-- C8 amended.  For every non-reserved field whose value is a scalar
string containing a comma, the translation produces an `$in` clause
over the comma-split parts of the value AS REWRITTEN by the operator
regex (which runs first); when the value contains no standalone
operator token the rewrite is the identity and this is exactly the
comma-split of the original value, e.g. `category=a,b,c` translates to
`$in {a, b, c}`. -/
theorem comma_value_to_in_clause (k v : String)
    (hk : excludeFieldsDefault.contains k = false) (hks : ¬k = "search")
    (hcomma : (',' : Char) ∈ v.data) :
    queryParserFilter [(k, .jstr v)] =
        [(replaceOps k, .jobj [("$in", .jarr ((splitComma (replaceOps v)).map JValue.jstr))])] ∧
      (replaceOps v = v →
        queryParserFilter [(k, .jstr v)] =
          [(replaceOps k, .jobj [("$in", .jarr ((splitComma v).map JValue.jstr))])]) ∧
      queryParserFilter [("category", .jstr "a,b,c")] =
        [("category", .jobj [("$in", .jarr [.jstr "a", .jstr "b", .jstr "c"])])] := by
  have hv' : (',' : Char) ∈ (replaceOps v).data := replaceOps_comma v hcomma
  have hst := specialTransform_comma (replaceOps k) (replaceOps v) hv'
  have hmain : queryParserFilter [(k, .jstr v)] =
      [(replaceOps k, .jobj [("$in", .jarr ((splitComma (replaceOps v)).map JValue.jstr))])] := by
    simp only [queryParserFilter]
    have hk' : k ∉ excludeFieldsDefault := by simpa using hk
    have hfil : List.filter (fun kv => !(excludeFieldsDefault.contains kv.1))
        [(k, JValue.jstr v)] = [(k, JValue.jstr v)] := by
      simp [List.filter_cons, hk']
    rw [hfil]
    have hrep : replaceEntries [(k, JValue.jstr v)] =
        [(replaceOps k, JValue.jstr (replaceOps v))] := rfl
    rw [hrep]
    have hlook : alookup "search" [(k, JValue.jstr v)] = none := by
      rw [alookup, if_neg hks]
      rfl
    rw [List.map_cons, List.map_nil, hst, hlook]
    rfl
  refine ⟨hmain, ?_, rfl⟩
  intro hid
  rw [hmain, hid]

/-- Witness for the amended C8 at `status=active,pending` (a value the
operator regex leaves unchanged). -/
theorem comma_value_to_in_clause_witness :
    (excludeFieldsDefault.contains "status" = false ∧ ¬"status" = "search" ∧
        (',' : Char) ∈ "active,pending".data) ∧
      queryParserFilter [("status", .jstr "active,pending")] =
        [(replaceOps "status",
          .jobj [("$in", .jarr ((splitComma (replaceOps "active,pending")).map JValue.jstr))])] :=
  ⟨⟨by decide, by decide, by decide⟩,
    (comma_value_to_in_clause "status" "active,pending"
      (by decide) (by decide) (by decide)).1⟩

/-! ## Claims about reserved-key exclusion -/

/-- The operator replacement on keys describes the keys of
`replaceEntries`. -/
theorem map_fst_replaceEntries (l : List (String × JValue)) :
    (replaceEntries l).map Prod.fst = (l.map Prod.fst).map replaceOps := by
  induction l with
  | nil => rfl
  | cons kv rest ih =>
    obtain ⟨k, v⟩ := kv
    simp [replaceEntries, ih]

/-- The `handleSpecialQueries` pass rewrites values only, never keys. -/
theorem map_fst_specialStep (l : List (String × JValue)) :
    ((l.map fun kv => (kv.1, specialTransform kv.1 kv.2)).map Prod.fst) = l.map Prod.fst := by
  induction l with
  | nil => rfl
  | cons kv rest ih => simp [ih]

/-- The `handleDateRanges` pass rewrites values only, never keys. -/
theorem map_fst_dateStep (l : List (String × JValue)) :
    ((l.map fun kv => (kv.1, dateTransform kv.2)).map Prod.fst) = l.map Prod.fst := by
  induction l with
  | nil => rfl
  | cons kv rest ih => simp [ih]

/-- Overwriting the value of an existing key preserves the key list. -/
theorem map_fst_overwrite (l : List (String × JValue)) (k : String) (v : JValue) :
    ((l.map fun kv => if kv.1 = k then (kv.1, v) else kv).map Prod.fst) = l.map Prod.fst := by
  induction l with
  | nil => rfl
  | cons kv rest ih =>
    by_cases h : kv.1 = k
    · simp [h, ih]
    · simp [h, ih]

/-- A key of `setKey l k v` is a key of `l` or the written key `k`. -/
theorem mem_map_fst_setKey (l : List (String × JValue)) (k x : String) (v : JValue)
    (hx : x ∈ (setKey l k v).map Prod.fst) : x ∈ l.map Prod.fst ∨ x = k := by
  unfold setKey at hx
  split_ifs at hx with hc
  · rw [map_fst_overwrite] at hx
    exact Or.inl hx
  · rw [List.map_append] at hx
    rcases List.mem_append.mp hx with hx | hx
    · exact Or.inl hx
    · simp at hx
      exact Or.inr hx

/-- A key absent from the key list looks up to nothing. -/
theorem alookup_eq_none (l : List (String × JValue)) (x : String)
    (hx : x ∉ l.map Prod.fst) : alookup x l = none := by
  induction l with
  | nil => rfl
  | cons kv rest ih =>
    obtain ⟨k', v'⟩ := kv
    rw [List.map_cons] at hx
    rw [alookup, if_neg fun hc => hx (by rw [← hc]; exact List.mem_cons_self _ _)]
    exact ih fun hc => hx (List.mem_cons_of_mem _ hc)

/-- Every key of the translated filter is either the `$text` key or the
operator-rewritten image of a key that survived the exclusion filter. -/
theorem mem_keys_queryParserFilter (q : List (String × JValue)) (x : String)
    (hx : x ∈ (queryParserFilter q).map Prod.fst) :
    x = "$text" ∨ ∃ k₀, k₀ ∈ (q.filter fun kv =>
      !(excludeFieldsDefault.contains kv.1)).map Prod.fst ∧ x = replaceOps k₀ := by
  simp only [queryParserFilter] at hx
  rw [map_fst_dateStep] at hx
  have hbase : x ∈ ((replaceEntries (q.filter fun kv =>
      !(excludeFieldsDefault.contains kv.1))).map fun kv =>
        (kv.1, specialTransform kv.1 kv.2)).map Prod.fst →
      ∃ k₀, k₀ ∈ (q.filter fun kv =>
        !(excludeFieldsDefault.contains kv.1)).map Prod.fst ∧ x = replaceOps k₀ := by
    intro hmem
    rw [map_fst_specialStep, map_fst_replaceEntries] at hmem
    obtain ⟨k₀, hk₀, hrep⟩ := List.mem_map.mp hmem
    exact ⟨k₀, hk₀, hrep.symm⟩
  cases halo : alookup "search" q with
  | none =>
    simp only [halo] at hx
    exact Or.inr (hbase hx)
  | some v =>
    simp only [halo] at hx
    by_cases ht : jsTruthy v
    · rw [if_pos ht] at hx
      rcases mem_map_fst_setKey _ _ _ _ hx with hx' | hx'
      · exact Or.inr (hbase hx')
      · exact Or.inl hx'
    · rw [if_neg ht] at hx
      exact Or.inr (hbase hx)

/-- C3 counterexample.  The reserved key `search` is NOT in the default
exclusion list `['page', 'limit', 'sort', 'fields']`, so the raw query
`search=urgent` contributes an equality predicate on a field literally
named `search` in addition to the conjoined `$text` predicate. -/
theorem search_key_contributes_field_predicate :
    queryParserFilter [("search", .jstr "urgent")] =
        [("search", .jstr "urgent"), ("$text", .jobj [("$search", .jstr "urgent")])] ∧
      alookup "search" (queryParserFilter [("search", .jstr "urgent")]) =
        some (.jstr "urgent") := by
  exact ⟨rfl, rfl⟩

/-- C3 amended.  The reserved control keys `page`, `limit`, `sort` and
`fields` are removed from the working mapping before filter translation
and never contribute a field predicate to the resulting filter; the
`search` key, however, is NOT in the default exclusion list: it stays in
the working mapping, contributing an ordinary field predicate on the
field `search`, in addition to the conjoined full-text `$text`
predicate. -/
theorem reserved_keys_never_in_filter :
    (∀ (q : List (String × JValue)) (k : String), k ∈ excludeFieldsDefault →
        alookup k (queryParserFilter q) = none) ∧
      alookup "search" (queryParserFilter [("search", .jstr "urgent")]) =
        some (.jstr "urgent") ∧
      alookup "$text" (queryParserFilter [("search", .jstr "urgent")]) =
        some (.jobj [("$search", .jstr "urgent")]) := by
  refine ⟨?_, rfl, rfl⟩
  intro q k hk
  apply alookup_eq_none
  intro hmem
  rcases mem_keys_queryParserFilter q k hmem with h | ⟨k₀, hk₀, hrep⟩
  · fin_cases hk <;> exact absurd h (by decide)
  · rcases replaceOps_eq_self_or_dollar k₀ with he | hd
    · rw [he] at hrep
      obtain ⟨kv, hkvmem, hkv1⟩ := List.mem_map.mp hk₀
      have hflt := List.mem_filter.mp hkvmem
      have hnotin : kv.1 ∉ excludeFieldsDefault := by simpa using hflt.2
      rw [hkv1, ← hrep] at hnotin
      exact hnotin hk
    · rw [← hrep] at hd
      fin_cases hk <;> exact absurd hd (by decide)

/-- Witness for the amended C3: the excluded key `page` of a raw query
never appears in the translated filter. -/
theorem reserved_keys_never_in_filter_witness :
    "page" ∈ excludeFieldsDefault ∧
      alookup "page" (queryParserFilter
        [("page", .jstr "2"), ("status", .jstr "active")]) = none :=
  ⟨by decide,
    reserved_keys_never_in_filter.1
      [("page", .jstr "2"), ("status", .jstr "active")] "page" (by decide)⟩
